import Mathlib

/-!
Verification of the agent-sessions ingestion and analytics core.

This file gives a shallow embedding, in Lean, of the Python sources

  * tools/analytics/discover_fields.py   (field cataloger)
  * tools/list-claude-sessions.py        (Claude session lister / timestamp resolver)
  * tools/pick_claude_sessions.py        (session picker / second timestamp resolver)
  * tools/analytics/prototype_metrics.py (session normalizer and metrics aggregator)

and proves or refutes the specified properties of those components.

Modelling conventions, used throughout:

  * Python values that flow through the untyped JSON trees are embedded as the
    inductive `PyVal`; Python dicts are insertion-ordered association lists with
    unique keys (Python dict semantics), so `dict.get` is the first matching
    binding.
  * Python numbers are embedded as `Int` inside JSON values and as `Rat` where
    the code does arithmetic on timestamps and averages.  Floating point
    rounding error of CPython floats is not modelled; arithmetic is exact.
  * `datetime` instants are embedded as rational epoch seconds.  The local-time
    versus UTC distinction of `datetime.fromtimestamp` does not matter for any
    property proved here (both are strictly monotone in the epoch value), so an
    instant is identified with its epoch second count.
  * Range overflow of `datetime.fromtimestamp` (OS dependent) is not modelled;
    the resolver is total on numeric input.
-/

set_option autoImplicit false

namespace AgentSessions

/-- Embedding of the Python values that appear in the scanned JSON trees:
`None`, booleans, numbers, strings, lists and dicts.  Dicts are
insertion-ordered association lists with unique keys. -/
inductive PyVal where
  | none
  | bool (b : Bool)
  | num (n : Int)
  | str (s : String)
  | list (xs : List PyVal)
  | dict (kvs : List (String × PyVal))

/-- A Python dict (a JSON object): insertion-ordered associations. -/
abbrev PyDict := List (String × PyVal)

/-- Python `d.get(k)`: the value of the first binding of `k`, if any. -/
def pyGet (kvs : PyDict) (k : String) : Option PyVal :=
  match kvs with
  | [] => Option.none
  | (k2, v) :: rest => if k2 = k then some v else pyGet rest k

/-- Python `d.get(k, default)`. -/
def pyGetD (kvs : PyDict) (k : String) (d : PyVal) : PyVal :=
  (pyGet kvs k).getD d

/-- Python truthiness of an embedded value. -/
def pyTruthy : PyVal → Bool
  | .none => false
  | .bool b => b
  | .num n => n != 0
  | .str s => s ≠ ""
  | .list xs => !xs.isEmpty
  | .dict kvs => !kvs.isEmpty

/-- Python `a or b` on embedded values: `a` if truthy, else `b`. -/
def pyOr (a b : PyVal) : PyVal :=
  if pyTruthy a then a else b

/-- Python `type(value).__name__` for the embedded value kinds. -/
def typeName : PyVal → String
  | .none => "NoneType"
  | .bool _ => "bool"
  | .num _ => "int"
  | .str _ => "str"
  | .list _ => "list"
  | .dict _ => "dict"

/-- Python `str.lower()` (ASCII case folding; the boilerplate patterns and
candidate texts compared here are ASCII). -/
def pyLower (s : String) : String :=
  String.mk (s.toList.map Char.toLower)

/-- Python `s[:n]` on strings (`n` leading code points). -/
def pyTake (s : String) (n : Nat) : String :=
  String.mk (s.toList.take n)

/-- Python `s[n:]` on strings. -/
def pyDrop (s : String) (n : Nat) : String :=
  String.mk (s.toList.drop n)

/-- Python `str.strip()` with no argument: remove leading and trailing
whitespace. -/
def pyStrip (s : String) : String :=
  String.mk (((s.toList.dropWhile Char.isWhitespace).reverse.dropWhile
    Char.isWhitespace).reverse)

/-- Python `str.replace(old, new)` for a single-character `old` (the only
shape the sources use: replacing every `Z`): every occurrence is replaced. -/
def replaceChar (c : Char) (rep : String) (s : String) : String :=
  String.join (s.toList.map (fun ch => if ch = c then rep else String.singleton ch))

/-- Helper of `splitOnChar`: accumulate the current (reversed) chunk. -/
def splitOnCharGo (sep : Char) (acc : List Char) : List Char → List String
  | [] => [String.mk acc.reverse]
  | c :: rest =>
    if c = sep then String.mk acc.reverse :: splitOnCharGo sep [] rest
    else splitOnCharGo sep (c :: acc) rest

/-- Python `s.split(sep)` for a single-character separator (the sources split
on `-`, `:`, `.` and `+` only). -/
def splitOnChar (sep : Char) (s : String) : List String :=
  splitOnCharGo sep [] s.toList

/-- Helper of `wsTokens`. -/
def wsTokensGo (acc : List Char) : List Char → List String
  | [] => if acc.isEmpty then [] else [String.mk acc.reverse]
  | c :: rest =>
    if c.isWhitespace then
      if acc.isEmpty then wsTokensGo [] rest
      else String.mk acc.reverse :: wsTokensGo [] rest
    else wsTokensGo (c :: acc) rest

/-- Python `str.split()` with no argument: the maximal whitespace-free runs,
empty tokens dropped. -/
def wsTokens (s : String) : List String :=
  wsTokensGo [] s.toList

/-- Decimal value of a digit run. -/
def digitsVal (cs : List Char) : Nat :=
  cs.foldl (fun n c => 10 * n + (c.toNat - 48)) 0

/-- A single-quote character, written via its code point. -/
def squote : String := String.singleton (Char.ofNat 39)

/-- An opening-brace character, written via its code point. -/
def lbrace : String := String.singleton (Char.ofNat 123)

/-- A closing-brace character, written via its code point. -/
def rbrace : String := String.singleton (Char.ofNat 125)

mutual

/-- Python `repr(value)` for embedded values (string escaping inside `repr` of a
string is not modelled; strings render between plain single quotes). -/
def pyRepr : PyVal → String
  | .none => "None"
  | .bool b => if b then "True" else "False"
  | .num n => toString n
  | .str s => squote ++ s ++ squote
  | .list xs => "[" ++ String.intercalate ", " (pyReprList xs) ++ "]"
  | .dict kvs => lbrace ++ String.intercalate ", " (pyReprPairs kvs) ++ rbrace

/-- Helper of `pyRepr` for list elements. -/
def pyReprList : List PyVal → List String
  | [] => []
  | x :: rest => pyRepr x :: pyReprList rest

/-- Helper of `pyRepr` for dict items. -/
def pyReprPairs : List (String × PyVal) → List String
  | [] => []
  | (k, v) :: rest => (squote ++ k ++ squote ++ ": " ++ pyRepr v) :: pyReprPairs rest

end

/-- Python `str(value)`: the string itself for strings, `repr` otherwise
(matching CPython for the kinds that occur here). -/
def pyStr : PyVal → String
  | .str s => s
  | v => pyRepr v

/-! ## Timestamp Resolver

Embeds `ClaudeSession._parse_timestamp` (tools/list-claude-sessions.py) and the
numeric part of `ts_of_event` (tools/pick_claude_sessions.py): magnitude-based
disambiguation of epoch seconds / milliseconds / microseconds. -/

/-- Numeric magnitude disambiguation of `_parse_timestamp` and `ts_of_event`:
values above `1e14` are microseconds, values above `1e11` are milliseconds,
anything else is seconds.  The result is the resolved instant in epoch
seconds. -/
def resolveNumeric (v : ℚ) : ℚ :=
  if v > 100000000000000 then v / 1000000
  else if v > 100000000000 then v / 1000
  else v

/-- Leap-year test of the proleptic Gregorian calendar. -/
def isLeap (y : Nat) : Bool :=
  (y % 4 = 0 && y % 100 ≠ 0) || y % 400 = 0

/-- Number of days in a month. -/
def daysInMonth (y m : Nat) : Nat :=
  if m = 2 then (if isLeap y then 29 else 28)
  else if m = 4 || m = 6 || m = 9 || m = 11 then 30
  else 31

/-- Days from 1970-01-01 to the given civil date (valid for years from 1),
via the standard era decomposition. -/
def daysFromCivil (y m d : Nat) : Int :=
  let yy := if m ≤ 2 then y - 1 else y
  let era := yy / 400
  let yoe := yy % 400
  let mp := if m > 2 then m - 3 else m + 9
  let doy := (153 * mp + 2) / 5 + (d - 1)
  let doe := yoe * 365 + yoe / 4 - yoe / 100 + doy
  (era * 146097 + doe : Int) - 719468

/-- Parse a fixed-width decimal field. -/
def parseFixed (w : Nat) (s : String) : Option Nat :=
  if s.length = w && s.toList.all Char.isDigit then some (digitsVal s.toList)
  else Option.none

/-- Parse a fractional-seconds field (digits after the dot) into microseconds;
digits beyond the sixth are truncated, exactly as `fromisoformat` does. -/
def parseFrac (f : String) : Option Nat :=
  if f.length > 0 && f.toList.all Char.isDigit then
    some (digitsVal ((f.toList.take 6) ++ List.replicate (6 - f.length) (Char.ofNat 48)))
  else Option.none

/-- Parse `SS` or `SS.ffff` seconds fields into microseconds. -/
def parseSeconds (ss : String) : Option Nat :=
  match splitOnChar (Char.ofNat 46) ss with
  | [a] => do
    let s ← parseFixed 2 a
    if s ≤ 59 then some (s * 1000000) else Option.none
  | [a, f] => do
    let s ← parseFixed 2 a
    let fr ← parseFrac f
    if s ≤ 59 then some (s * 1000000 + fr) else Option.none
  | _ => Option.none

/-- Parse an `HH:MM` or `HH:MM:SS[.ffff]` time-of-day into microseconds. -/
def parseTimeOfDay (t : String) : Option Nat :=
  match splitOnChar (Char.ofNat 58) t with
  | [hh, mm] => do
    let h ← parseFixed 2 hh
    let m ← parseFixed 2 mm
    if h ≤ 23 ∧ m ≤ 59 then some ((3600 * h + 60 * m) * 1000000) else Option.none
  | [hh, mm, ss] => do
    let h ← parseFixed 2 hh
    let m ← parseFixed 2 mm
    let s ← parseSeconds ss
    if h ≤ 23 ∧ m ≤ 59 then some ((3600 * h + 60 * m) * 1000000 + s) else Option.none
  | _ => Option.none

/-- Parse a `±HH:MM` UTC offset into signed microseconds. -/
def parseOffset (sign : Bool) (t : String) : Option Int :=
  match splitOnChar (Char.ofNat 58) t with
  | [hh, mm] => do
    let h ← parseFixed 2 hh
    let m ← parseFixed 2 mm
    if h ≤ 23 ∧ m ≤ 59 then
      let micros : Int := ((3600 * h + 60 * m) * 1000000 : Nat)
      some (if sign then micros else -micros)
    else Option.none
  | _ => Option.none

/-- Split a time string into its clock part and an optional signed offset
part, keyed on a `+` or `-` separator. -/
def splitOffsetPart (t : String) : String × Option (Bool × String) :=
  match splitOnChar (Char.ofNat 43) t with
  | [a, b] => (a, some (true, b))
  | _ =>
    match splitOnChar (Char.ofNat 45) t with
    | [a, b] => (a, some (false, b))
    | _ => (t, Option.none)

/-- Parse a `YYYY-MM-DD` date into days since the epoch. -/
def parseDatePart (s : String) : Option Int :=
  match splitOnChar (Char.ofNat 45) s with
  | [ys, ms, ds] => do
    let y ← parseFixed 4 ys
    let m ← parseFixed 2 ms
    let d ← parseFixed 2 ds
    if 1 ≤ y ∧ 1 ≤ m ∧ m ≤ 12 ∧ 1 ≤ d ∧ d ≤ daysInMonth y m then
      some (daysFromCivil y m d)
    else Option.none
  | _ => Option.none

/-- Modelled from the spec: `datetime.fromisoformat` (Python standard library,
not part of this repository).  Parses `YYYY-MM-DD`, optionally followed by a
`T` or space separator, a time of day and a `±HH:MM` offset, into epoch
microseconds (the resolution of `datetime`); an aware result is normalized to
UTC, a naive one is taken as is.  Returns `none` on any malformed input (the
callers catch the exception). -/
def pyFromIsoMicros (s : String) : Option Int :=
  let date := pyTake s 10
  let rest := pyDrop s 10
  match parseDatePart date with
  | Option.none => Option.none
  | some days =>
    if rest = "" then some (days * 86400000000)
    else
      let sep := pyTake rest 1
      if sep = "T" ∨ sep = " " then
        let (clock, off?) := splitOffsetPart (pyDrop rest 1)
        match parseTimeOfDay clock with
        | Option.none => Option.none
        | some tod =>
          match off? with
          | Option.none => some (days * 86400000000 + tod)
          | some (sign, offs) =>
            match parseOffset sign offs with
            | Option.none => Option.none
            | some off => some (days * 86400000000 + tod - off)
      else Option.none

/-- The parsed ISO instant as rational epoch seconds. -/
def pyFromIso (s : String) : Option ℚ :=
  (pyFromIsoMicros s).map (fun m => (m : ℚ) / 1000000)

/-- Embeds `ClaudeSession._parse_timestamp`: numbers go through the magnitude
heuristic, strings through ISO-8601 parsing with every `Z` replaced by
`+00:00` (Python `str.replace` replaces all occurrences), anything else is
unresolvable.  Python treats `bool` as a subclass of `int`, so booleans take
the numeric branch with values 0 and 1. -/
def parse_timestamp : PyVal → Option ℚ
  | .num n => some (resolveNumeric (n : ℚ))
  | .bool b => some (resolveNumeric (if b then 1 else 0))
  | .str s => pyFromIso (replaceChar (Char.ofNat 90) "+00:00" s)
  | _ => Option.none

/-- The ordered candidate key list of `ClaudeSession._extract_timestamp`. -/
def ts_keys : List String :=
  ["timestamp", "time", "ts", "created", "created_at", "datetime", "date"]

/-- First candidate key present in a dict, in candidate order: the value of
the first key of the list that is present (even when that value is `None`). -/
def findFirstKey (kvs : PyDict) : List String → Option PyVal
  | [] => Option.none
  | k :: rest =>
    match pyGet kvs k with
    | some v => some v
    | Option.none => findFirstKey kvs rest

/-- Embeds `ClaudeSession._extract_timestamp`: try the candidate keys at the
top level, then inside a nested `payload` dict; the first key found wins and
its value is handed to `_parse_timestamp` (whose failure is final). -/
def extract_timestamp (event : PyDict) : Option ℚ :=
  match findFirstKey event ts_keys with
  | some v => parse_timestamp v
  | Option.none =>
    match pyGet event "payload" with
    | some (.dict p) =>
      match findFirstKey p ts_keys with
      | some v => parse_timestamp v
      | Option.none => Option.none
    | _ => Option.none

/-- The (shorter) candidate key list of `ts_of_event` in
tools/pick_claude_sessions.py. -/
def ts_keys_pick : List String :=
  ["timestamp", "time", "ts", "created", "created_at"]

/-- Loop body of `ts_of_event`: unlike `_extract_timestamp`, a key whose value
fails to resolve (unsupported kind, or a string that does not parse) makes the
loop continue with the remaining candidate keys, and there is no `payload`
fallback. -/
def ts_of_event_go (e : PyDict) : List String → Option ℚ
  | [] => Option.none
  | k :: rest =>
    match pyGet e k with
    | Option.none => ts_of_event_go e rest
    | some v =>
      match v with
      | .num n => some (resolveNumeric (n : ℚ))
      | .bool b => some (resolveNumeric (if b then 1 else 0))
      | .str s =>
        match pyFromIso (replaceChar (Char.ofNat 90) "+00:00" s) with
        | some t => some t
        | Option.none => ts_of_event_go e rest
      | _ => ts_of_event_go e rest

/-- Embeds `ts_of_event` of tools/pick_claude_sessions.py. -/
def ts_of_event (e : PyDict) : Option ℚ :=
  ts_of_event_go e ts_keys_pick

/-! ## Field Cataloger

Embeds `FieldCatalog` and `scan_json_object` of
tools/analytics/discover_fields.py. -/

/-- One Field Record: the per-path entry of `FieldCatalog.fields`.  The Python
set of type names is embedded as an insertion-ordered duplicate-free list (the
iteration order of a CPython set is unspecified; only membership matters). -/
structure FieldInfo where
  type : List String
  count : Nat
  total_sessions : Nat
  examples : List String
  always_present : Bool

/-- The `defaultdict` default of `FieldCatalog.__init__`: empty type set, zero
counts, no examples, `always_present = True`. -/
def defaultFieldInfo : FieldInfo :=
  { type := [], count := 0, total_sessions := 0, examples := [], always_present := true }

/-- The field catalog: an insertion-ordered map from field path to its record,
plus the scanned-session counter. -/
structure FieldCatalog where
  fields : List (String × FieldInfo)
  sessions_scanned : Nat

/-- A fresh catalog. -/
def FieldCatalog.empty : FieldCatalog :=
  { fields := [], sessions_scanned := 0 }

/-- Python `set.add` on the insertion-ordered embedding. -/
def typeInsert (t : String) (ts : List String) : List String :=
  if t ∈ ts then ts else ts ++ [t]

/-- The truncation applied to a rendered example: a rendering longer than 200
characters is cut to its first 200 characters plus an ellipsis. -/
def truncateExample (e : String) : String :=
  if e.length > 200 then (pyTake e 200) ++ "..." else e

/-- The example-recording block of `FieldCatalog.add_field`: while fewer than 3
examples are stored, render the value, truncate it, and append it unless it is
already stored. -/
def updateExamples (examples : List String) (value : PyVal) : List String :=
  if examples.length < 3 then
    let e := truncateExample (pyStr value)
    if e ∈ examples then examples else examples ++ [e]
  else examples

/-- Per-record effect of `FieldCatalog.add_field`: bump the occurrence count,
record the value kind, and maybe record an example. -/
def infoAddField (info : FieldInfo) (value : PyVal) : FieldInfo :=
  { info with
    count := info.count + 1
    type := typeInsert (typeName value) info.type
    examples := updateExamples info.examples value }

/-- Get-or-create update of the insertion-ordered map, with the `defaultdict`
default record. -/
def assocUpdate (fields : List (String × FieldInfo)) (path : String)
    (f : FieldInfo → FieldInfo) : List (String × FieldInfo) :=
  match fields with
  | [] => [(path, f defaultFieldInfo)]
  | (k, info) :: rest =>
    if k = path then (k, f info) :: rest
    else (k, info) :: assocUpdate rest path f

/-- Embeds `FieldCatalog.add_field`.  The `session_num` parameter of the
source is unused by its body and is omitted. -/
def FieldCatalog.add_field (c : FieldCatalog) (path : String) (value : PyVal) : FieldCatalog :=
  { c with fields := assocUpdate c.fields path (fun info => infoAddField info value) }

/-- Per-record effect of `FieldCatalog.mark_session` once the counter has been
bumped to `scanned`: clear `always_present` when the stored `total_sessions`
lags the new counter, then overwrite `total_sessions` with the new counter. -/
def infoMark (scanned : Nat) (info : FieldInfo) : FieldInfo :=
  let info :=
    if info.total_sessions < scanned then { info with always_present := false } else info
  { info with total_sessions := scanned }

/-- Embeds `FieldCatalog.mark_session`. -/
def FieldCatalog.mark_session (c : FieldCatalog) : FieldCatalog :=
  let scanned := c.sessions_scanned + 1
  { fields := c.fields.map (fun kv => (kv.1, infoMark scanned kv.2))
    sessions_scanned := scanned }

/-- One entry of the serialized catalog (`FieldCatalog.to_dict`). -/
structure FieldDictEntry where
  types : List String
  frequency : String
  always_present : Bool
  examples : List String

/-- The frequency string of `to_dict`: `count/totalSessions sessions`. -/
def freqString (count scanned : Nat) : String :=
  toString count ++ "/" ++ toString scanned ++ " sessions"

/-- Stable insertion sort: `le x y = true` places an earlier `x` before `y`.
With `le` a total preorder test this is exactly the ordering CPython `sorted`
produces (stable, by the given key). -/
def insertBy {α : Type} (le : α → α → Bool) (x : α) : List α → List α
  | [] => [x]
  | y :: ys => if le x y then x :: y :: ys else y :: insertBy le x ys

/-- Stable sort via `insertBy` (the `foldr` form keeps equal elements in their
original order). -/
def sortBy {α : Type} (le : α → α → Bool) : List α → List α
  | [] => []
  | x :: xs => insertBy le x (sortBy le xs)

/-- Code-point comparison of strings, matching Python string ordering. -/
def strLe (a b : String) : Bool :=
  compare a b ≠ Ordering.gt

/-- The comparison used for every `sorted(..., key=count, reverse=True)` of
the aggregator: an earlier element stays before a later one exactly when its
key is at least as large, which combined with the stable `sortBy` reproduces
CPython descending sorting. -/
def keyLe {α : Type} (key : α → Nat) (a b : α) : Bool :=
  key b ≤ key a

/-- Association lookup in the catalog field list (`self.fields[path]` read
access). -/
def assocFind : List (String × FieldInfo) → String → Option FieldInfo
  | [], _ => Option.none
  | (k, i) :: rest, p => if k = p then some i else assocFind rest p

/-- The record stored under a path, if any. -/
def findField (c : FieldCatalog) (path : String) : Option FieldInfo :=
  assocFind c.fields path

/-- Embeds `FieldCatalog.to_dict`: path-sorted export of the records, with the
frequency string and at most 3 examples. -/
def FieldCatalog.to_dict (c : FieldCatalog) : List (String × FieldDictEntry) :=
  (sortBy (fun a b => strLe a.1 b.1) c.fields).map fun kv =>
    (kv.1,
      { types := kv.2.type
        frequency := freqString kv.2.count c.sessions_scanned
        always_present := kv.2.always_present
        examples := kv.2.examples.take 3 })

mutual

/-- Embeds `scan_json_object`: record every key of every dict under the path
formed from the prefix, recurse into dict and list values; of a list, at most
the first 5 elements are visited, each under the prefix suffixed `[]`. -/
def scan_json_object (obj : PyVal) (c : FieldCatalog) (pre : String) : FieldCatalog :=
  match obj with
  | .dict kvs => scanPairs kvs c pre
  | .list xs => scanItems 5 xs c pre
  | _ => c

/-- Dict branch of `scan_json_object`: one `add_field` per key, recursing into
nested dicts and lists. -/
def scanPairs (kvs : List (String × PyVal)) (c : FieldCatalog) (pre : String) : FieldCatalog :=
  match kvs with
  | [] => c
  | (k, v) :: rest =>
    let path := if pre = "" then k else pre ++ "." ++ k
    let c1 := c.add_field path v
    let c2 :=
      match v with
      | .dict _ => scan_json_object v c1 path
      | .list _ => scan_json_object v c1 path
      | _ => c1
    scanPairs rest c2 pre

/-- List branch of `scan_json_object`: `obj[:5]`, each element scanned under
the `[]`-suffixed path. -/
def scanItems (n : Nat) (xs : List PyVal) (c : FieldCatalog) (pre : String) : FieldCatalog :=
  match n, xs with
  | _, [] => c
  | 0, _ :: _ => c
  | n + 1, x :: rest => scanItems n rest (scan_json_object x c (pre ++ "[]")) pre

end

/-! ## Session Normalizer

Embeds `parse_codex_session` of tools/analytics/prototype_metrics.py, which
produces the canonical session dict consumed by the aggregator.  Ill-shaped
events whose access pattern would raise inside the Python `try` block (for
example a non-dict `payload` hit by `.get`, which aborts the whole parse) are
not modelled: events are taken well-shaped, with non-dict containers read as
empty dicts and non-numeric token fields as 0. -/

/-- The canonical session record (the normalized dict built by
`parse_codex_session`; the nested `tokens` dict is flattened into four
fields).  Optional analytics inputs that other normalizers may attach
(`avg_response_time_seconds` and friends) are `none` when the key is absent. -/
structure SessionRecord where
  agent : String := "codex"
  file : String := ""
  start_time : Option ℚ := Option.none
  end_time : Option ℚ := Option.none
  duration_seconds : ℚ := 0
  tokens_input : Int := 0
  tokens_output : Int := 0
  tokens_cached : Int := 0
  tokens_reasoning : Int := 0
  message_count : Nat := 0
  tool_call_count : Nat := 0
  project : Option String := Option.none
  has_end_time : Bool := false
  avg_response_time_seconds : Option ℚ := Option.none
  avg_user_message_length : Option ℚ := Option.none
  avg_thinking_time_seconds : Option ℚ := Option.none

/-- Read a value as a dict; Python would raise `.get` on a non-dict here,
aborting the parse of the whole file (not modelled). -/
def dictOf : PyVal → PyDict
  | .dict kvs => kvs
  | _ => []

/-- Test whether an optional lookup produced a given string. -/
def isStr (v : Option PyVal) (s : String) : Bool :=
  match v with
  | some (.str t) => t = s
  | _ => false

/-- Python `usage.get(k, 0)` read as an integer (booleans count as 0/1; a
non-numeric value would raise in Python, not modelled). -/
def pyGetInt (kvs : PyDict) (k : String) : Int :=
  match pyGet kvs k with
  | some (.num n) => n
  | some (.bool b) => if b then 1 else 0
  | _ => 0

/-- Python `Path(p).name`: the last nonempty `/`-separated component (the
special-cased dot components of `pathlib` are not modelled). -/
def pathName (p : String) : String :=
  ((((splitOnChar (Char.ofNat 47) p).filter (fun t => t ≠ "")).getLast?).getD "")

/-- The timestamp read of `parse_codex_session`: `event.get('timestamp')`,
taken only when truthy, parsed as ISO-8601 with `Z` replaced; a truthy
non-string raises `AttributeError` inside the per-event `try` and yields no
timestamp. -/
def codexTs (e : PyDict) : Option ℚ :=
  match pyGet e "timestamp" with
  | some (.str s) => if s ≠ "" then pyFromIso (replaceChar (Char.ofNat 90) "+00:00" s) else Option.none
  | _ => Option.none

/-- Timestamp step of the `parse_codex_session` event loop: fold the resolved
instant into the running min (start) and max (end). -/
def codexStepTimes (s : SessionRecord) (e : PyDict) : SessionRecord :=
  match codexTs e with
  | Option.none => s
  | some ts =>
    let st := match s.start_time with
      | Option.none => some ts
      | some a => some (min a ts)
    let en := match s.end_time with
      | Option.none => some ts
      | some b => some (max b ts)
    { s with start_time := st, end_time := en }

/-- Token step of the event loop: a `type == 'event_msg'` event whose payload
has `type == 'token_count'` and an `info.last_token_usage` entry adds its four
usage counters. -/
def codexStepTokens (s : SessionRecord) (e : PyDict) : SessionRecord :=
  if isStr (pyGet e "type") "event_msg"
      && isStr (pyGet (dictOf (pyGetD e "payload" (.dict []))) "type") "token_count" then
    let info := dictOf (pyGetD (dictOf (pyGetD e "payload" (.dict []))) "info" (.dict []))
    match pyGet info "last_token_usage" with
    | some usage =>
      let u := dictOf usage
      { s with
        tokens_input := s.tokens_input + pyGetInt u "input_tokens"
        tokens_output := s.tokens_output + pyGetInt u "output_tokens"
        tokens_cached := s.tokens_cached + pyGetInt u "cached_input_tokens"
        tokens_reasoning := s.tokens_reasoning + pyGetInt u "reasoning_output_tokens" }
    | Option.none => s
  else s

/-- Project step of the event loop: while the project is unset (Python
falsiness: `None` or the empty string), take the last path component of the
first truthy `payload.cwd` string. -/
def codexStepProject (s : SessionRecord) (e : PyDict) : SessionRecord :=
  if s.project = Option.none ∨ s.project = some "" then
    match pyGet (dictOf (pyGetD e "payload" (.dict []))) "cwd" with
    | some (.str cwd) =>
      if cwd ≠ "" then { s with project := some (pathName cwd) } else s
    | _ => s
  else s

/-- Counting step of the event loop: a `response_item` event bumps the message
counter when its payload type is `message`, the tool-call counter when it is
`function_call`. -/
def codexStepCounts (s : SessionRecord) (e : PyDict) : SessionRecord :=
  if isStr (pyGet e "type") "response_item" then
    let pt := pyGet (dictOf (pyGetD e "payload" (.dict []))) "type"
    if isStr pt "message" then { s with message_count := s.message_count + 1 }
    else if isStr pt "function_call" then { s with tool_call_count := s.tool_call_count + 1 }
    else s
  else s

/-- One iteration of the `parse_codex_session` event loop, in source order:
timestamps, tokens, project, counters. -/
def codexStep (s : SessionRecord) (e : PyDict) : SessionRecord :=
  codexStepCounts (codexStepProject (codexStepTokens (codexStepTimes s e) e) e) e

/-- Embeds `parse_codex_session` on the decoded event list of one file: `none`
for a file with zero parseable events, otherwise the folded record with the
final duration computation (`end - start` when both endpoints exist, else 0,
with `has_end_time` set accordingly). -/
def parse_codex_session (file : String) (events : List PyDict) : Option SessionRecord :=
  if events.isEmpty then Option.none
  else
    let s := events.foldl codexStep { file := file }
    let s :=
      match s.start_time, s.end_time with
      | some a, some b => { s with duration_seconds := b - a, has_end_time := true }
      | _, _ => { s with duration_seconds := 0, has_end_time := false }
    some s

/-! ## Title extraction

Embeds the title-extraction block of `ClaudeSession.parse`
(tools/list-claude-sessions.py, lines 87 to 123 and 146 to 148). -/

/-- Python `' '.join(str(item.get('text','')) if isinstance(item, dict) else
str(item) for item in content)`: flatten a list of content blocks. -/
def joinBlocks (xs : List PyVal) : String :=
  String.intercalate " " (xs.map fun item =>
    match item with
    | .dict kvs => pyStr (pyGetD kvs "text" (.str ""))
    | v => pyStr v)

/-- A content value as candidate text: lists of blocks are joined with
spaces, anything else is passed through. -/
def contentToText : PyVal → PyVal
  | .list xs => .str (joinBlocks xs)
  | v => v

/-- The fixed boilerplate list (`skip_patterns` in the source). -/
def skip_patterns : List String :=
  ["you are an expert", "you are a helpful", "act as a",
   "<command-name>", "caveat:", "<local-command"]

/-- Whether a character list starts with the pattern list. -/
def startsWithL : List Char → List Char → Bool
  | [], _ => true
  | _ :: _, [] => false
  | p :: ps, c :: cs => p == c && startsWithL ps cs

/-- Whether the pattern occurs inside the character list. -/
def hasSubL (pat : List Char) : List Char → Bool
  | [] => pat.isEmpty
  | c :: rest => startsWithL pat (c :: rest) || hasSubL pat rest

/-- Python `pat in s` on strings. -/
def strContains (s pat : String) : Bool :=
  hasSubL pat.toList s.toList

/-- Python `' '.join(text.strip().split())`: collapse whitespace runs. -/
def normalizeSpace (s : String) : String :=
  String.intercalate " " (wsTokens s)

/-- The candidate a single event contributes to the title, if any: the event
must have `type == 'user'` and a falsy `isMeta`; the text is taken from the
nested `message.content` first, falling back to the direct `content` or
`text` field, with block lists joined; a nonempty string survives whitespace
normalization and truncation to 200 characters, and is accepted unless its
lowercase form contains a boilerplate substring. -/
def titleCandidate (e : PyDict) : Option String :=
  if isStr (pyGet e "type") "user" && !pyTruthy (pyGetD e "isMeta" (.bool false)) then
    let text : PyVal :=
      match pyGet e "message" with
      | some (.dict m) => contentToText (pyGetD m "content" PyVal.none)
      | _ => PyVal.none
    let text : PyVal :=
      if pyTruthy text then text
      else contentToText (pyOr (pyGetD e "content" PyVal.none) (pyGetD e "text" PyVal.none))
    match text with
    | .str s =>
      if pyStrip s ≠ "" then
        let t := normalizeSpace s
        let t := if t.length > 200 then pyTake t 200 else t
        if skip_patterns.any (fun p => strContains (pyLower t) p) then Option.none
        else some t
      else Option.none
    | _ => Option.none
  else Option.none

/-- The `if not self.title` loop of `ClaudeSession.parse`: the first accepted
candidate is kept, later events are still iterated but cannot overwrite it. -/
def titleFold (acc : Option String) (events : List PyDict) : Option String :=
  match events with
  | [] => acc
  | e :: rest =>
    match acc with
    | some t => titleFold (some t) rest
    | Option.none => titleFold (titleCandidate e) rest

/-- The extracted title of a session: the loop result, with the explicit
`"No prompt"` sentinel when no event yielded an accepted candidate. -/
def extract_title (events : List PyDict) : String :=
  (titleFold Option.none events).getD "No prompt"

/-! ## Metrics Aggregator

Embeds `SessionMetrics` of tools/analytics/prototype_metrics.py.  The
`defaultdict(list)` groupings built by `add_session` become insertion-ordered
association lists computed from the record list.  `session.get('agent',
'unknown')` and `session.get('project', 'unknown')` default only when the key
is absent; every record built by `parse_codex_session` carries both keys (the
project possibly `None`), so the embedding reads the fields directly, with
`none` standing for the Python `None` project. -/

/-- Python `round(x, n)`: round half to even at `n` decimal digits (exact
rational arithmetic; CPython float representation error is not modelled). -/
def roundHalfEven (q : ℚ) : Int :=
  let f := ⌊q⌋
  let r := q - (f : ℚ)
  if r < 1/2 then f
  else if (1 : ℚ)/2 < r then f + 1
  else if f % 2 = 0 then f else f + 1

/-- Python `round(q, ndigits)` as a rational. -/
def pyRound (q : ℚ) (ndigits : Nat) : ℚ :=
  ((roundHalfEven (q * ((10 : ℚ) ^ ndigits))) : ℚ) / ((10 : ℚ) ^ ndigits)

/-- Append a record to its group in an insertion-ordered grouping
(`defaultdict(list)` with dict insertion order). -/
def groupPush {κ : Type} [DecidableEq κ] (groups : List (κ × List SessionRecord))
    (k : κ) (r : SessionRecord) : List (κ × List SessionRecord) :=
  match groups with
  | [] => [(k, [r])]
  | (k2, rs) :: rest =>
    if k2 = k then (k2, rs ++ [r]) :: rest
    else (k2, rs) :: groupPush rest k r

/-- The `by_project` grouping maintained by `add_session`. -/
def by_project (records : List SessionRecord) : List (Option String × List SessionRecord) :=
  records.foldl (fun g r => groupPush g r.project r) []

/-- The `by_agent` grouping maintained by `add_session`. -/
def by_agent (records : List SessionRecord) : List (String × List SessionRecord) :=
  records.foldl (fun g r => groupPush g r.agent r) []

/-- Increment a counter key (`defaultdict(int)` / `Counter` with insertion
order). -/
def counterAdd {κ : Type} [DecidableEq κ] (c : List (κ × Nat)) (k : κ) : List (κ × Nat) :=
  match c with
  | [] => [(k, 1)]
  | (k2, n) :: rest =>
    if k2 = k then (k2, n + 1) :: rest
    else (k2, n) :: counterAdd rest k

/-- Build a counter from a key list. -/
def counterOf {κ : Type} [DecidableEq κ] (ks : List κ) : List (κ × Nat) :=
  ks.foldl counterAdd []

/-- Sum of a rational-valued field over records. -/
def sumQ (f : SessionRecord → ℚ) (rs : List SessionRecord) : ℚ :=
  (rs.map f).sum

/-- Sum of an integer-valued field over records. -/
def sumZ (f : SessionRecord → Int) (rs : List SessionRecord) : Int :=
  (rs.map f).sum

/-- Sum of a natural-valued field over records. -/
def sumN (f : SessionRecord → Nat) (rs : List SessionRecord) : Nat :=
  (rs.map f).sum

/-- Minimum of a nonempty rational list (0 on the empty list, unreached). -/
def listMin (xs : List ℚ) : ℚ :=
  match xs with
  | [] => 0
  | x :: rest => rest.foldl min x

/-- Maximum of a nonempty rational list (0 on the empty list, unreached). -/
def listMax (xs : List ℚ) : ℚ :=
  match xs with
  | [] => 0
  | x :: rest => rest.foldl max x

/-- The `time_range` sub-dict of the global view. -/
structure TimeRange where
  first : ℚ
  last : ℚ
  span_days : Int

/-- The global view (`calculate_total_analytics`). -/
structure TotalAnalytics where
  total_sessions : Nat
  total_duration_hours : ℚ
  tokens_input : Int
  tokens_output : Int
  tokens_cached : Int
  tokens_reasoning : Int
  total_messages : Nat
  total_tool_calls : Nat
  avg_session_duration_minutes : ℚ
  avg_messages_per_session : ℚ
  time_range : Option TimeRange

/-- Embeds `calculate_total_analytics`.  The comprehension guard
`'start_time' in s` keeps records whose dict carries the key; the normalizer
always writes it (possibly `None`, on which the Python `min` would raise), so
the embedding keeps the records with a resolved instant. -/
def calculate_total_analytics (rs : List SessionRecord) : TotalAnalytics :=
  let n := rs.length
  let total_duration := sumQ (fun s => s.duration_seconds) rs
  let total_messages := sumN (fun s => s.message_count) rs
  let timestamps := rs.filterMap (fun s => s.start_time)
  { total_sessions := n
    total_duration_hours := pyRound (total_duration / 3600) 2
    tokens_input := sumZ (fun s => s.tokens_input) rs
    tokens_output := sumZ (fun s => s.tokens_output) rs
    tokens_cached := sumZ (fun s => s.tokens_cached) rs
    tokens_reasoning := sumZ (fun s => s.tokens_reasoning) rs
    total_messages := total_messages
    total_tool_calls := sumN (fun s => s.tool_call_count) rs
    avg_session_duration_minutes := pyRound (total_duration / (max n 1 : ℚ) / 60) 2
    avg_messages_per_session := pyRound ((total_messages : ℚ) / (max n 1 : ℚ)) 2
    time_range :=
      if timestamps.isEmpty then Option.none
      else
        some
          { first := listMin timestamps
            last := listMax timestamps
            span_days :=
              if timestamps.length > 1 then
                ⌊(listMax timestamps - listMin timestamps) / 86400⌋
              else 0 } }

/-- One entry of the per-project view. -/
structure ProjectStats where
  session_count : Nat
  agents_used : List (String × Nat)
  total_duration_hours : ℚ
  total_tokens : Int
  avg_session_duration_minutes : ℚ

/-- The stats computed for one project group. -/
def projectStats (sessions : List SessionRecord) : ProjectStats :=
  let total_duration := sumQ (fun s => s.duration_seconds) sessions
  { session_count := sessions.length
    agents_used := counterOf (sessions.map (fun s => s.agent))
    total_duration_hours := pyRound (total_duration / 3600) 2
    total_tokens := sumZ (fun s => s.tokens_input + s.tokens_output) sessions
    avg_session_duration_minutes :=
      pyRound (total_duration / (max sessions.length 1 : ℚ) / 60) 2 }

/-- Embeds `calculate_by_project_analytics`: group by project, skip the
`'unknown'` key (the literal string compared with `==`; a `None` key is not
equal to `'unknown'` and is kept), then sort by descending session count
(CPython `sorted` is stable, so ties keep first-seen order). -/
def calculate_by_project_analytics (records : List SessionRecord) :
    List (Option String × ProjectStats) :=
  let entries :=
    ((by_project records).filter (fun g => g.1 ≠ some "unknown")).map
      (fun g => (g.1, projectStats g.2))
  sortBy (keyLe (fun x => x.2.session_count)) entries

/-- One entry of the inter-agent view. -/
structure AgentStats where
  session_count : Nat
  avg_session_duration_minutes : ℚ
  avg_messages_per_session : ℚ
  avg_tool_calls_per_session : ℚ
  avg_input_per_session : ℚ
  avg_output_per_session : ℚ
  output_to_input_ratio : ℚ
  avg_response_time_seconds : Option ℚ

/-- The stats computed for one agent group. -/
def agentStats (sessions : List SessionRecord) : AgentStats :=
  let n := sessions.length
  let total_duration := sumQ (fun s => s.duration_seconds) sessions
  let tokens_in := sumZ (fun s => s.tokens_input) sessions
  let tokens_out := sumZ (fun s => s.tokens_output) sessions
  let response_times := sessions.filterMap (fun s => s.avg_response_time_seconds)
  { session_count := n
    avg_session_duration_minutes := pyRound (total_duration / (max n 1 : ℚ) / 60) 2
    avg_messages_per_session :=
      pyRound ((sumN (fun s => s.message_count) sessions : ℚ) / (max n 1 : ℚ)) 2
    avg_tool_calls_per_session :=
      pyRound ((sumN (fun s => s.tool_call_count) sessions : ℚ) / (max n 1 : ℚ)) 2
    avg_input_per_session := pyRound ((tokens_in : ℚ) / (max n 1 : ℚ)) 0
    avg_output_per_session := pyRound ((tokens_out : ℚ) / (max n 1 : ℚ)) 0
    output_to_input_ratio := pyRound ((tokens_out : ℚ) / (max tokens_in 1 : ℚ)) 3
    avg_response_time_seconds :=
      if response_times.isEmpty then Option.none
      else some (pyRound (response_times.sum / (max response_times.length 1 : ℚ)) 2) }

/-- Embeds `calculate_inter_agent_analytics`: group by agent, skipping the
`'unknown'` agent and empty groups. -/
def calculate_inter_agent_analytics (records : List SessionRecord) :
    List (String × AgentStats) :=
  ((by_agent records).filter (fun g => g.1 ≠ "unknown" && !g.2.isEmpty)).map
    (fun g => (g.1, agentStats g.2))

/-- Hour of day of an instant (`datetime.fromtimestamp(t).hour`, taken in
UTC; the timezone offset shifts which bucket a given instant lands in but is
irrelevant to every property proved here). -/
def hourOf (t : ℚ) : Nat :=
  ((⌊t⌋ % 86400).toNat) / 3600

/-- The weekday names produced by `strftime('%A')`, Monday first. -/
def dayNames : List String :=
  ["Monday", "Tuesday", "Wednesday", "Thursday", "Friday", "Saturday", "Sunday"]

/-- Weekday name of an instant (epoch day 0 was a Thursday). -/
def dayOf (t : ℚ) : String :=
  (dayNames.getD (((Int.fdiv ⌊t⌋ 86400 + 3) % 7).toNat) "Monday")

/-- The hour histogram of `calculate_human_performance`: one bucket per
integer hour, in first-seen order. -/
def sessions_by_hour (rs : List SessionRecord) : List (Nat × Nat) :=
  rs.foldl
    (fun h r =>
      match r.start_time with
      | some t => counterAdd h (hourOf t)
      | Option.none => h) []

/-- The day-name histogram of `calculate_human_performance`. -/
def sessions_by_day (rs : List SessionRecord) : List (String × Nat) :=
  rs.foldl
    (fun h r =>
      match r.start_time with
      | some t => counterAdd h (dayOf t)
      | Option.none => h) []

/-- The top-3 selection applied to a histogram: CPython
`sorted(items, key=count, reverse=True)[:3]` — stable descending sort by
count, then the first three buckets. -/
def peakBuckets {κ : Type} (hist : List (κ × Nat)) : List (κ × Nat) :=
  (sortBy (keyLe (fun x => x.2)) hist).take 3

/-- Zero-padded two-digit rendering of an hour. -/
def pad2 (n : Nat) : String :=
  if n < 10 then "0" ++ toString n else toString n

/-- The formatted peak-hour strings. -/
def peakHourStrings (hist : List (Nat × Nat)) : List String :=
  (peakBuckets hist).map (fun hc => pad2 hc.1 ++ ":00 (" ++ toString hc.2 ++ " sessions)")

/-- The formatted peak-day strings. -/
def peakDayStrings (hist : List (String × Nat)) : List String :=
  (peakBuckets hist).map (fun dc => dc.1 ++ " (" ++ toString dc.2 ++ " sessions)")

/-- The human-performance view (`calculate_human_performance`). -/
structure HumanPerformance where
  total_sessions : Nat
  completed_sessions : Nat
  abandoned_sessions : Nat
  completion_rate : ℚ
  avg_user_prompt_length : Option ℚ
  avg_thinking_time_seconds : Option ℚ
  peak_productivity_hours : List String
  peak_productivity_days : List String
  sessions_by_hour : List (Nat × Nat)

/-- Embeds `calculate_human_performance`. -/
def calculate_human_performance (rs : List SessionRecord) : HumanPerformance :=
  let lengths := rs.filterMap (fun s => s.avg_user_message_length)
  let thinking := rs.filterMap (fun s => s.avg_thinking_time_seconds)
  let completed := (rs.filter (fun s => s.has_end_time)).length
  let abandoned := (rs.filter (fun s => !s.has_end_time)).length
  { total_sessions := rs.length
    completed_sessions := completed
    abandoned_sessions := abandoned
    completion_rate := pyRound ((completed : ℚ) / (max rs.length 1 : ℚ) * 100) 1
    avg_user_prompt_length :=
      if lengths.isEmpty then Option.none
      else some (pyRound (lengths.sum / (max lengths.length 1 : ℚ)) 0)
    avg_thinking_time_seconds :=
      if thinking.isEmpty then Option.none
      else some (pyRound (thinking.sum / (max thinking.length 1 : ℚ)) 2)
    peak_productivity_hours := peakHourStrings (sessions_by_hour rs)
    peak_productivity_days := peakDayStrings (sessions_by_day rs)
    sessions_by_hour := sessions_by_hour rs }

/-! ## Properties of the stable sort

`sortBy (keyLe key)` is the embedding of CPython
`sorted(xs, key=key, reverse=True)`: a stable descending sort.  The lemmas
below establish exactly that: the output is a permutation of the input,
pairwise descending in the key, and elements with equal keys keep their
input order (the filter characterization of stability). -/

section StableSort

variable {α : Type} (key : α → Nat)

theorem keyLe_true {a b : α} : keyLe key a b = true ↔ key b ≤ key a := by
  simp [keyLe]

theorem insertBy_perm (le : α → α → Bool) (x : α) (l : List α) :
    List.Perm (insertBy le x l) (x :: l) := by
  induction l with
  | nil => exact List.Perm.refl _
  | cons y ys ih =>
    unfold insertBy
    split
    · exact List.Perm.refl _
    · exact (ih.cons y).trans (List.Perm.swap x y ys)

theorem sortBy_perm (le : α → α → Bool) (xs : List α) : List.Perm (sortBy le xs) xs := by
  induction xs with
  | nil => exact List.Perm.refl _
  | cons x xs ih => exact (insertBy_perm le x (sortBy le xs)).trans (ih.cons x)

theorem pairwise_insertBy (x : α) (l : List α)
    (h : l.Pairwise (fun a b => key b ≤ key a)) :
    (insertBy (keyLe key) x l).Pairwise (fun a b => key b ≤ key a) := by
  induction l with
  | nil => simp [insertBy]
  | cons y ys ih =>
    rcases List.pairwise_cons.mp h with ⟨hy, hys⟩
    unfold insertBy
    by_cases hxy : keyLe key x y = true
    · simp only [hxy, if_true]
      refine List.pairwise_cons.mpr ⟨?_, h⟩
      intro z hz
      rcases List.mem_cons.mp hz with hz | hz
      · subst hz; exact (keyLe_true key).mp hxy
      · exact le_trans (hy z hz) ((keyLe_true key).mp hxy)
    · simp only [hxy, if_false]
      refine List.pairwise_cons.mpr ⟨?_, ih hys⟩
      intro z hz
      have hz2 : z ∈ x :: ys := (insertBy_perm (keyLe key) x ys).mem_iff.mp hz
      rcases List.mem_cons.mp hz2 with rfl | hz3
      · exact le_of_not_le (fun hc => hxy ((keyLe_true key).mpr hc))
      · exact hy z hz3

theorem sortBy_pairwise (xs : List α) :
    (sortBy (keyLe key) xs).Pairwise (fun a b => key b ≤ key a) := by
  induction xs with
  | nil => simp [sortBy]
  | cons x xs ih => exact pairwise_insertBy key x _ ih

theorem filter_insertBy (x : α) (l : List α) (c : Nat) :
    (insertBy (keyLe key) x l).filter (fun a => key a = c) =
      if key x = c then x :: l.filter (fun a => key a = c)
      else l.filter (fun a => key a = c) := by
  induction l with
  | nil => by_cases hxc : key x = c <;> simp [insertBy, List.filter_cons, hxc]
  | cons y ys ih =>
    unfold insertBy
    by_cases hxy : keyLe key x y = true
    · simp only [hxy, if_true]
      by_cases hxc : key x = c <;> simp [List.filter_cons, hxc]
    · have hlt : key x < key y :=
        lt_of_not_le (fun hc => hxy ((keyLe_true key).mpr hc))
      simp only [hxy, if_false]
      by_cases hyc : key y = c
      · have hxc : ¬ key x = c := by omega
        simp [List.filter_cons, hyc, hxc, ih]
      · by_cases hxc : key x = c <;> simp [List.filter_cons, hyc, hxc, ih]

theorem sortBy_filter (xs : List α) (c : Nat) :
    (sortBy (keyLe key) xs).filter (fun a => key a = c) =
      xs.filter (fun a => key a = c) := by
  induction xs with
  | nil => rfl
  | cons x xs ih =>
    unfold sortBy
    rw [filter_insertBy]
    by_cases hxc : key x = c <;> simp [List.filter_cons, hxc, ih]

end StableSort

/-! ## Properties of the title-extraction loop -/

theorem titleFold_some (t : String) (events : List PyDict) :
    titleFold (some t) events = some t := by
  induction events with
  | nil => rfl
  | cons e rest ih => simpa [titleFold] using ih

theorem titleFold_none (events : List PyDict) :
    titleFold Option.none events = (events.filterMap titleCandidate).head? := by
  induction events with
  | nil => rfl
  | cons e rest ih =>
    unfold titleFold
    cases h : titleCandidate e with
    | none => simpa [List.filterMap_cons, h] using ih
    | some t => simp [List.filterMap_cons, h, titleFold_some]

/-! ## Properties of the normalizer event loop -/

/-- The invariant of the running start/end pair: both endpoints exist or
neither does, and the start never exceeds the end. -/
def timesOK (s : SessionRecord) : Prop :=
  (s.start_time = Option.none ↔ s.end_time = Option.none) ∧
    ∀ a b, s.start_time = some a → s.end_time = some b → a ≤ b

theorem timesOK_of_eq (s t : SessionRecord) (h1 : t.start_time = s.start_time)
    (h2 : t.end_time = s.end_time) (h : timesOK s) : timesOK t := by
  unfold timesOK
  rw [h1, h2]
  exact h

theorem codexStepTokens_times (s : SessionRecord) (e : PyDict) :
    (codexStepTokens s e).start_time = s.start_time ∧
      (codexStepTokens s e).end_time = s.end_time := by
  unfold codexStepTokens
  split
  · dsimp only
    split
    · exact ⟨rfl, rfl⟩
    · exact ⟨rfl, rfl⟩
  · exact ⟨rfl, rfl⟩

theorem codexStepProject_times (s : SessionRecord) (e : PyDict) :
    (codexStepProject s e).start_time = s.start_time ∧
      (codexStepProject s e).end_time = s.end_time := by
  unfold codexStepProject
  repeat' split
  all_goals exact ⟨rfl, rfl⟩

theorem codexStepCounts_times (s : SessionRecord) (e : PyDict) :
    (codexStepCounts s e).start_time = s.start_time ∧
      (codexStepCounts s e).end_time = s.end_time := by
  unfold codexStepCounts
  split
  · dsimp only
    split
    · exact ⟨rfl, rfl⟩
    · split
      · exact ⟨rfl, rfl⟩
      · exact ⟨rfl, rfl⟩
  · exact ⟨rfl, rfl⟩

theorem timesOK_codexStepTimes (s : SessionRecord) (e : PyDict) (h : timesOK s) :
    timesOK (codexStepTimes s e) := by
  unfold codexStepTimes
  cases hts : codexTs e with
  | none => exact h
  | some ts =>
    cases hs : s.start_time with
    | none =>
      cases he : s.end_time with
      | none =>
        refine ⟨by simp, fun a b ha hb => ?_⟩
        obtain rfl : ts = a := by simpa using ha
        obtain rfl : ts = b := by simpa using hb
        exact le_refl _
      | some b0 =>
        refine ⟨by simp, fun a b ha hb => ?_⟩
        obtain rfl : ts = a := by simpa using ha
        obtain rfl : max b0 ts = b := by simpa using hb
        exact le_max_right _ _
    | some a0 =>
      cases he : s.end_time with
      | none =>
        refine ⟨by simp, fun a b ha hb => ?_⟩
        obtain rfl : min a0 ts = a := by simpa using ha
        obtain rfl : ts = b := by simpa using hb
        exact min_le_right _ _
      | some b0 =>
        refine ⟨by simp, fun a b ha hb => ?_⟩
        obtain rfl : min a0 ts = a := by simpa using ha
        obtain rfl : max b0 ts = b := by simpa using hb
        exact le_trans (min_le_right _ _) (le_max_right _ _)

theorem timesOK_codexStep (s : SessionRecord) (e : PyDict) (h : timesOK s) :
    timesOK (codexStep s e) := by
  unfold codexStep
  have h1 := timesOK_codexStepTimes s e h
  have h2 := timesOK_of_eq _ _ (codexStepTokens_times _ e).1 (codexStepTokens_times _ e).2 h1
  have h3 := timesOK_of_eq _ _ (codexStepProject_times _ e).1 (codexStepProject_times _ e).2 h2
  exact timesOK_of_eq _ _ (codexStepCounts_times _ e).1 (codexStepCounts_times _ e).2 h3

theorem timesOK_foldl (events : List PyDict) (s : SessionRecord) (h : timesOK s) :
    timesOK (events.foldl codexStep s) := by
  induction events generalizing s with
  | nil => exact h
  | cons e rest ih => exact ih _ (timesOK_codexStep s e h)

theorem timesOK_init (file : String) : timesOK { file := file } := by
  unfold timesOK
  simp

/-! ## Properties of the example store -/

theorem string_mk_length (l : List Char) : (String.mk l).length = l.length := rfl

theorem string_append_length (a b : String) : (a ++ b).length = a.length + b.length := by
  cases a with
  | mk la =>
    cases b with
    | mk lb =>
      show (la ++ lb).length = la.length + lb.length
      exact List.length_append la lb

theorem truncateExample_length (e : String) : (truncateExample e).length ≤ 203 := by
  unfold truncateExample
  split
  · rename_i hgt
    rw [string_append_length]
    have hlen : (pyTake e 200).length = 200 := by
      show (e.toList.take 200).length = 200
      rw [List.length_take]
      have he : e.toList.length = e.length := rfl
      omega
    rw [hlen]
    decide
  · rename_i hle
    omega

theorem assocFind_assocUpdate (l : List (String × FieldInfo)) (path q : String)
    (f : FieldInfo → FieldInfo) :
    assocFind (assocUpdate l path f) q =
      if q = path then some (f ((assocFind l path).getD defaultFieldInfo))
      else assocFind l q := by
  induction l with
  | nil =>
    simp only [assocUpdate, assocFind]
    by_cases hq : q = path
    · subst hq; simp
    · rw [if_neg (fun h => hq h.symm), if_neg hq]
  | cons kv rest ih =>
    obtain ⟨k, i⟩ := kv
    simp only [assocUpdate]
    by_cases hk : k = path
    · subst hk
      simp only [if_pos rfl, assocFind]
      by_cases hq : k = q
      · subst hq; simp [assocFind]
      · have hq2 : ¬ q = k := fun h => hq h.symm
        simp [assocFind, hq, hq2]
    · rw [if_neg hk]
      by_cases hkq : k = q
      · subst hkq
        have hqp : ¬ k = path := hk
        simp [assocFind, hqp]
      · simp only [assocFind, if_neg hkq]
        rw [ih]
        by_cases hq : q = path
        · simp [hq, assocFind, hk]
        · simp [hq]

theorem findField_add_field (c : FieldCatalog) (p q : String) (v : PyVal) :
    findField (c.add_field p v) q =
      if q = p then some (infoAddField ((findField c p).getD defaultFieldInfo) v)
      else findField c q := by
  unfold findField FieldCatalog.add_field
  exact assocFind_assocUpdate c.fields p q _

theorem assocFind_map (l : List (String × FieldInfo)) (g : FieldInfo → FieldInfo)
    (q : String) :
    assocFind (l.map (fun kv => (kv.1, g kv.2))) q = (assocFind l q).map g := by
  induction l with
  | nil => rfl
  | cons kv rest ih =>
    obtain ⟨k, i⟩ := kv
    by_cases hk : k = q <;> simp [assocFind, hk, ih]

theorem findField_mark_session (c : FieldCatalog) (q : String) :
    findField c.mark_session q =
      (findField c q).map (infoMark (c.sessions_scanned + 1)) := by
  unfold findField FieldCatalog.mark_session
  exact assocFind_map c.fields _ q

theorem infoMark_examples (n : Nat) (i : FieldInfo) :
    (infoMark n i).examples = i.examples := by
  unfold infoMark
  split <;> rfl

/-- The example-store invariant of one Field Record: at most 3 examples, each
at most 203 characters (200 plus the 3-character ellipsis), no duplicates. -/
def exampleOK (info : FieldInfo) : Prop :=
  info.examples.length ≤ 3 ∧ (∀ e ∈ info.examples, e.length ≤ 203) ∧
    info.examples.Nodup

/-- The invariant over the whole catalog. -/
def examplesOK (c : FieldCatalog) : Prop :=
  ∀ p info, findField c p = some info → exampleOK info

theorem exampleOK_default : exampleOK defaultFieldInfo := by
  unfold exampleOK defaultFieldInfo
  simp

theorem exampleOK_infoAddField (info : FieldInfo) (v : PyVal) (h : exampleOK info) :
    exampleOK (infoAddField info v) := by
  obtain ⟨h1, h2, h3⟩ := h
  unfold exampleOK infoAddField
  dsimp only
  unfold updateExamples
  split
  · rename_i hlen
    dsimp only
    split
    · exact ⟨h1, h2, h3⟩
    · rename_i hmem
      refine ⟨?_, ?_, ?_⟩
      · rw [List.length_append]
        simp only [List.length_singleton]
        omega
      · intro e he
        rcases List.mem_append.mp he with he | he
        · exact h2 e he
        · have : e = truncateExample (pyStr v) := by simpa using he
          subst this
          exact truncateExample_length _
      · rw [List.nodup_append]
        refine ⟨h3, List.nodup_singleton _, ?_⟩
        intro e he he2
        have : e = truncateExample (pyStr v) := by simpa using he2
        subst this
        exact hmem he
  · exact ⟨h1, h2, h3⟩

theorem examplesOK_empty : examplesOK FieldCatalog.empty := by
  intro p info h
  have hnone : findField FieldCatalog.empty p = Option.none := rfl
  rw [hnone] at h
  exact Option.noConfusion h

theorem examplesOK_add_field (c : FieldCatalog) (p : String) (v : PyVal)
    (h : examplesOK c) : examplesOK (c.add_field p v) := by
  intro q info hq
  rw [findField_add_field] at hq
  by_cases hqp : q = p
  · rw [if_pos hqp] at hq
    have hinfo := Option.some.inj hq
    subst hinfo
    apply exampleOK_infoAddField
    cases hf : findField c p with
    | none => simpa [hf] using exampleOK_default
    | some i => simpa [hf] using h p i hf
  · rw [if_neg hqp] at hq
    exact h q info hq

theorem examplesOK_mark_session (c : FieldCatalog) (h : examplesOK c) :
    examplesOK c.mark_session := by
  intro q info hq
  rw [findField_mark_session] at hq
  cases hf : findField c q with
  | none => rw [hf] at hq; simp at hq
  | some i =>
    rw [hf] at hq
    have hinfo : infoMark (c.sessions_scanned + 1) i = info := by
      simpa using hq
    subst hinfo
    have hok := h q i hf
    unfold exampleOK at hok ⊢
    rw [infoMark_examples]
    exact hok

/-! ## The claims -/

set_option maxRecDepth 40000

/-- C1.  The claim states that the always-present flag of a Field Path is
true exactly when the path's occurrence count equals the number of session
boundaries marked, so a path that occurred in every session scanned so far
keeps `always_present = true` after `mark_session`.  The code refutes this:
`mark_session` tests `total_sessions < sessions_scanned`, and `total_sessions`
is always the previous counter value, so the test always succeeds and every
catalogued field is flagged not-always-present at the first boundary after it
appears.  Here a field added in session 1 (count 1 = 1 boundary) ends with
`always_present = false`, and even one present in both of two sessions
(count 2 = 2 boundaries) stays `false`. -/
theorem c1_always_present_code_bug :
    ((findField ((FieldCatalog.empty.add_field "a" (PyVal.num 1)).mark_session) "a").map
        (fun i => (i.count, i.total_sessions, i.always_present)) = some (1, 1, false))
    ∧ ((FieldCatalog.empty.add_field "a" (PyVal.num 1)).mark_session).sessions_scanned = 1
    ∧ ((findField (((((FieldCatalog.empty.add_field "a" (PyVal.num 1)).mark_session).add_field
          "a" (PyVal.num 1))).mark_session) "a").map
        (fun i => (i.count, i.total_sessions, i.always_present)) = some (2, 2, false)) :=
  ⟨by decide, by decide, by decide⟩

/-- C2, counterexample.  The claim quantifies over every numeric input `t`,
but for `t = 5` the resolver reads both `5` and `5 × 1000 = 5000` as plain
seconds (both are below the `1e11` threshold), so the three encodings do not
resolve to the same instant. -/
theorem c2_counterexample :
    resolveNumeric 5 = 5 ∧ resolveNumeric (5 * 1000) = 5000 ∧
      resolveNumeric (5 * 1000) ≠ resolveNumeric 5 := by
  norm_num [resolveNumeric]

/-- C2, amended.  For numeric inputs in the range where the magnitude
heuristic is consistent — `1e8 < t ≤ 1e11`, which covers every realistic
epoch-second value — resolving `t` (seconds), `t × 1000` (milliseconds) and
`t × 1000000` (microseconds) all yield the instant `t`, using the thresholds:
above `1e14` microseconds, above `1e11` milliseconds, otherwise seconds. -/
theorem c2_roundtrip_amended (t : ℚ) (h1 : 100000000 < t) (h2 : t ≤ 100000000000) :
    resolveNumeric t = t ∧ resolveNumeric (t * 1000) = t ∧
      resolveNumeric (t * 1000000) = t := by
  unfold resolveNumeric
  refine ⟨?_, ?_, ?_⟩
  · rw [if_neg (by linarith), if_neg (by linarith)]
  · rw [if_neg (by linarith), if_pos (by linarith)]
    ring
  · rw [if_pos (by linarith)]
    ring

/-- C2, witness: the round-trip at the concrete epoch second 1700000000. -/
theorem c2_roundtrip_witness :
    resolveNumeric 1700000000 = 1700000000 ∧
      resolveNumeric (1700000000 * 1000) = 1700000000 ∧
      resolveNumeric (1700000000 * 1000000) = 1700000000 :=
  c2_roundtrip_amended 1700000000 (by norm_num) (by norm_num)

/-- C3.  Every canonical record produced by the normalizer satisfies:
`has_end_time` holds exactly when both endpoints are present;
`duration_seconds = max 0 (end - start)` when both are present (the two sides
agree because start is the minimum and end the maximum of the same resolved
timestamps); `duration_seconds = 0` when either endpoint is absent; and
`duration_seconds` is never negative. -/
theorem c3_duration_spec (file : String) (events : List PyDict) (r : SessionRecord)
    (h : parse_codex_session file events = some r) :
    (r.has_end_time = true ↔ (r.start_time.isSome = true ∧ r.end_time.isSome = true))
    ∧ (∀ a b, r.start_time = some a → r.end_time = some b →
        r.duration_seconds = max 0 (b - a))
    ∧ ((r.start_time = Option.none ∨ r.end_time = Option.none) →
        r.duration_seconds = 0)
    ∧ 0 ≤ r.duration_seconds := by
  unfold parse_codex_session at h
  by_cases he : events.isEmpty
  · rw [if_pos he] at h
    exact Option.noConfusion h
  · rw [if_neg he] at h
    dsimp only at h
    have hOK : timesOK (events.foldl codexStep { file := file }) :=
      timesOK_foldl events _ (timesOK_init file)
    set s0 := events.foldl codexStep { file := file } with hs0
    cases h1 : s0.start_time with
    | none =>
      cases h2 : s0.end_time with
      | none =>
        rw [h1, h2] at h
        obtain rfl := (Option.some.inj h).symm
        refine ⟨by simp, ?_, fun _ => rfl, le_refl 0⟩
        intro a b ha hb
        have ha2 : (Option.none : Option ℚ) = some a := ha
        exact Option.noConfusion ha2
      | some b =>
        exact absurd (hOK.1.mp h1) (by rw [h2]; exact fun hc => Option.noConfusion hc)
    | some a =>
      cases h2 : s0.end_time with
      | none =>
        exact absurd (hOK.1.mpr h2) (by rw [h1]; exact fun hc => Option.noConfusion hc)
      | some b =>
        rw [h1, h2] at h
        obtain rfl := (Option.some.inj h).symm
        have hab : a ≤ b := hOK.2 a b h1 h2
        refine ⟨by simp, ?_, ?_, ?_⟩
        · intro a2 b2 ha hb
          have ha2 : some a = some a2 := ha
          have hb2 : some b = some b2 := hb
          obtain rfl := Option.some.inj ha2
          obtain rfl := Option.some.inj hb2
          show b - a = max 0 (b - a)
          rw [max_eq_right (sub_nonneg.mpr hab)]
        · intro hcontra
          rcases hcontra with hc | hc
          · have hc2 : some a = (Option.none : Option ℚ) := hc
            exact Option.noConfusion hc2
          · have hc2 : some b = (Option.none : Option ℚ) := hc
            exact Option.noConfusion hc2
        · show (0 : ℚ) ≤ b - a
          exact sub_nonneg.mpr hab

/-- The two-event input used to instantiate C3: timestamps 70s and 10s after
the epoch, so the record has start 10, end 70, duration 60. -/
def c3events : List PyDict :=
  [[("timestamp", PyVal.str "1970-01-01T00:01:10Z")],
   [("timestamp", PyVal.str "1970-01-01T00:00:10Z")]]

/-- The canonical record the normalizer produces on `c3events`. -/
def c3rec : SessionRecord :=
  (parse_codex_session "f" c3events).get (by rfl)

/-- C3, witness: the duration specification instantiated on `c3events`. -/
theorem c3_duration_witness :
    (c3rec.has_end_time = true ↔
        (c3rec.start_time.isSome = true ∧ c3rec.end_time.isSome = true))
    ∧ (∀ a b, c3rec.start_time = some a → c3rec.end_time = some b →
        c3rec.duration_seconds = max 0 (b - a))
    ∧ ((c3rec.start_time = Option.none ∨ c3rec.end_time = Option.none) →
        c3rec.duration_seconds = 0)
    ∧ 0 ≤ c3rec.duration_seconds :=
  c3_duration_spec "f" c3events c3rec (Option.some_get _).symm

/-- A record with a resolved project, for C4. -/
def c4recA : SessionRecord := { project := some "repoA" }

/-- A record whose project is the unresolved sentinel `None`, for C4. -/
def c4recN : SessionRecord := { project := Option.none }

/-- C4.  The claim states that the record with the unresolved (`None`)
project is excluded from the per-project view, leaving exactly one entry
keyed `repoA`.  The code refutes this: `add_session` stores the key
`session.get('project', 'unknown')`, and `get` returns the stored `None`
(the default applies only to a missing key), while the view skips only the
literal string key `'unknown'`; `None != 'unknown'`, so the view keeps a
`None`-keyed entry and has two entries, not one. -/
theorem c4_project_none_code_bug :
    ((calculate_by_project_analytics [c4recA, c4recN]).map (fun g => g.1)
        = [some "repoA", Option.none])
    ∧ (calculate_by_project_analytics [c4recA, c4recN]).length = 2 :=
  ⟨by decide, by decide⟩

/-- A record starting at 23:00 UTC of epoch day 0, for C5. -/
def c5recA : SessionRecord := { start_time := some 82800 }

/-- A record starting at 01:00 UTC of epoch day 0, for C5. -/
def c5recB : SessionRecord := { start_time := some 3600 }

/-- C5, counterexample.  Two records with hours 23 and 1, each counted once:
the histogram lists hour 23 first (first seen), and the stable descending
sort keeps that order on the tie, so the peak list is `[23, 1]` — not the
ascending hour order `[1, 23]` the claim requires for ties. -/
theorem c5_counterexample :
    sessions_by_hour [c5recA, c5recB] = [(23, 1), (1, 1)]
    ∧ peakBuckets (sessions_by_hour [c5recA, c5recB]) = [(23, 1), (1, 1)]
    ∧ (calculate_human_performance [c5recA, c5recB]).peak_productivity_hours
        = ["23:00 (1 sessions)", "01:00 (1 sessions)"]
    ∧ peakBuckets (sessions_by_hour [c5recA, c5recB]) ≠ [(1, 1), (23, 1)] := by
  have h1 : sessions_by_hour [c5recA, c5recB] = [(23, 1), (1, 1)] := by
    norm_num [sessions_by_hour, counterAdd, hourOf, c5recA, c5recB]
    decide
  have h2 : peakBuckets (sessions_by_hour [c5recA, c5recB]) = [(23, 1), (1, 1)] := by
    rw [h1]
    norm_num [peakBuckets, sortBy, insertBy, keyLe]
  refine ⟨h1, h2, ?_, by rw [h2]; decide⟩
  have hproj : (calculate_human_performance [c5recA, c5recB]).peak_productivity_hours
      = peakHourStrings (sessions_by_hour [c5recA, c5recB]) := rfl
  rw [hproj]
  unfold peakHourStrings
  rw [h2]
  decide

/-- C5, amended.  The peak productivity hours and days are the top-3
histogram buckets by count descending, with ties broken by first-seen order
for both histograms (the stability of CPython `sorted`), not by ascending
hour number: the sorted bucket list is a permutation of the histogram,
pairwise descending in count, and for every count value the equal-count
buckets appear in their histogram (first-seen) order; the view takes its
first three entries. -/
theorem c5_peak_buckets_amended (rs : List SessionRecord) :
    ((calculate_human_performance rs).peak_productivity_hours
        = peakHourStrings (sessions_by_hour rs))
    ∧ ((calculate_human_performance rs).peak_productivity_days
        = peakDayStrings (sessions_by_day rs))
    ∧ (peakBuckets (sessions_by_hour rs)).length ≤ 3
    ∧ peakBuckets (sessions_by_hour rs)
        = (sortBy (keyLe (fun x => x.2)) (sessions_by_hour rs)).take 3
    ∧ List.Pairwise (fun a b => b.2 ≤ a.2)
        (sortBy (keyLe (fun x => x.2)) (sessions_by_hour rs))
    ∧ List.Perm (sortBy (keyLe (fun x => x.2)) (sessions_by_hour rs))
        (sessions_by_hour rs)
    ∧ (∀ c, (sortBy (keyLe (fun x => x.2)) (sessions_by_hour rs)).filter
          (fun x => x.2 = c) = (sessions_by_hour rs).filter (fun x => x.2 = c))
    ∧ List.Pairwise (fun a b => b.2 ≤ a.2)
        (sortBy (keyLe (fun x => x.2)) (sessions_by_day rs))
    ∧ List.Perm (sortBy (keyLe (fun x => x.2)) (sessions_by_day rs))
        (sessions_by_day rs)
    ∧ (∀ c, (sortBy (keyLe (fun x => x.2)) (sessions_by_day rs)).filter
          (fun x => x.2 = c) = (sessions_by_day rs).filter (fun x => x.2 = c)) := by
  refine ⟨rfl, rfl, ?_, rfl, sortBy_pairwise _ _, sortBy_perm _ _,
    fun c => sortBy_filter _ _ c, sortBy_pairwise _ _, sortBy_perm _ _,
    fun c => sortBy_filter _ _ c⟩
  show ((sortBy (keyLe (fun x => x.2)) (sessions_by_hour rs)).take 3).length ≤ 3
  rw [List.length_take]
  exact min_le_left _ _

/-- C6.  Aggregation over the empty collection raises no division by zero:
every per-session average divides by `max(count, 1)` and evaluates to the raw
sum 0, the global view reports zero sessions and no time range, the
per-agent view has no groups, and the completion rate (same guard) is 0; the
guard divisor is positive for every input. -/
theorem c6_empty_aggregation_safe :
    (calculate_total_analytics []).total_sessions = 0
    ∧ (calculate_total_analytics []).total_duration_hours = 0
    ∧ (calculate_total_analytics []).avg_session_duration_minutes = 0
    ∧ (calculate_total_analytics []).avg_messages_per_session = 0
    ∧ (calculate_total_analytics []).time_range = Option.none
    ∧ calculate_inter_agent_analytics [] = []
    ∧ (calculate_human_performance []).total_sessions = 0
    ∧ (calculate_human_performance []).completion_rate = 0
    ∧ (calculate_human_performance []).avg_user_prompt_length = Option.none
    ∧ (calculate_human_performance []).avg_thinking_time_seconds = Option.none
    ∧ (∀ rs : List SessionRecord, (0 : ℚ) < max (rs.length : ℚ) 1) := by
  refine ⟨rfl, ?_, ?_, ?_, rfl, rfl, rfl, ?_, rfl, rfl, ?_⟩
  · norm_num [calculate_total_analytics, sumQ, pyRound, roundHalfEven]
  · norm_num [calculate_total_analytics, sumQ, pyRound, roundHalfEven]
  · norm_num [calculate_total_analytics, sumQ, sumN, pyRound, roundHalfEven]
  · norm_num [calculate_human_performance, pyRound, roundHalfEven]
  · intro rs
    exact lt_max_of_lt_right zero_lt_one

/-- The first candidate event of the C7 scenario: boilerplate text. -/
def c7e1 : PyDict :=
  [("type", .str "user"),
   ("message", .dict [("content", .str "You are an expert assistant...")])]

/-- The second candidate event of the C7 scenario: a real prompt. -/
def c7e2 : PyDict :=
  [("type", .str "user"),
   ("message", .dict [("content", .str "fix the bug in parser.py")])]

/-- C7.  Title extraction keeps the first accepted candidate: for every event
list the title is the first event candidate that survives the filters
(human-authored non-meta user event, text from the fixed fallback order,
nonempty, no case-insensitive boilerplate substring), and the explicit
sentinel `"No prompt"` — never null — when no event is accepted.  On the
scenario `["You are an expert assistant...", "fix the bug in parser.py"]`
the first candidate is rejected as boilerplate and the title is the
second. -/
theorem c7_title_extraction :
    (∀ events : List PyDict,
        extract_title events = ((events.filterMap titleCandidate).head?).getD "No prompt")
    ∧ titleCandidate c7e1 = Option.none
    ∧ titleCandidate c7e2 = some "fix the bug in parser.py"
    ∧ extract_title [c7e1, c7e2] = "fix the bug in parser.py"
    ∧ extract_title [] = "No prompt" := by
  refine ⟨?_, by decide, by decide, by decide, rfl⟩
  intro events
  unfold extract_title
  rw [titleFold_none]

/-- The event of the C8 counterexample: the first candidate key is present
but holds an unresolvable `None`, and a later candidate key holds a valid
epoch value. -/
def c8ev : PyDict := [("timestamp", PyVal.none), ("time", PyVal.num 1700000000)]

/-- C8, counterexample.  The claim (for all timestamp extraction in the
repository) says the first present candidate key wins and the remaining keys
are never consulted.  `ts_of_event` of tools/pick_claude_sessions.py refutes
it: with `timestamp` present but unresolvable, it falls through to the later
`time` key and resolves it, while `_extract_timestamp` of
tools/list-claude-sessions.py stops at `timestamp` and fails. -/
theorem c8_counterexample :
    pyGet c8ev "timestamp" = some PyVal.none
    ∧ parse_timestamp PyVal.none = Option.none
    ∧ ts_of_event c8ev = some 1700000000
    ∧ extract_timestamp c8ev = Option.none :=
  ⟨rfl, rfl, by decide, rfl⟩

/-- C8, amended.  The claimed behavior is exact for
`ClaudeSession._extract_timestamp` and is fully characterized here:
(1) over any dict and any ordered candidate key list, the first present key
wins — when every earlier key is absent and key `k` is present, its value is
chosen, whatever the later keys hold; (2) when every key of the list is
absent, the search yields nothing; (3) whenever the ordered `ts_keys` search
finds a value at the top level, extraction is exactly the resolution of that
value — even a resolution failure is final, the payload fallback unconsulted;
(4) only when every `ts_keys` candidate is absent at the top level is the
nested `payload` dict consulted, with the same ordered search; (5) with no
top-level candidate and no payload dict, extraction fails; (6) combined for
the concrete key list: if `ts_keys` splits as earlier-absent keys, then a
present key `k`, then arbitrary later keys, extraction is exactly the
resolution of the value of `k`.  (`ts_of_event` in
tools/pick_claude_sessions.py instead skips to later candidate keys when the
found value fails to resolve, and has no payload fallback — the
counterexample.) -/
theorem c8_first_key_amended :
    (∀ (d : PyDict) (ks1 ks2 : List String) (k : String) (v : PyVal),
        (∀ k2 ∈ ks1, pyGet d k2 = Option.none) → pyGet d k = some v →
        findFirstKey d (ks1 ++ k :: ks2) = some v)
    ∧ (∀ (d : PyDict) (ks : List String),
        (∀ k2 ∈ ks, pyGet d k2 = Option.none) → findFirstKey d ks = Option.none)
    ∧ (∀ (e : PyDict) (v : PyVal), findFirstKey e ts_keys = some v →
        extract_timestamp e = parse_timestamp v)
    ∧ (∀ (e : PyDict) (p : List (String × PyVal)),
        findFirstKey e ts_keys = Option.none →
        pyGet e "payload" = some (PyVal.dict p) →
        extract_timestamp e =
          (match findFirstKey p ts_keys with
           | some v => parse_timestamp v
           | Option.none => Option.none))
    ∧ (∀ e : PyDict, findFirstKey e ts_keys = Option.none →
        (∀ p, pyGet e "payload" ≠ some (PyVal.dict p)) →
        extract_timestamp e = Option.none)
    ∧ (∀ (e : PyDict) (ks1 ks2 : List String) (k : String) (v : PyVal),
        ts_keys = ks1 ++ k :: ks2 →
        (∀ k2 ∈ ks1, pyGet e k2 = Option.none) → pyGet e k = some v →
        extract_timestamp e = parse_timestamp v) := by
  have hfind : ∀ (d : PyDict) (ks1 ks2 : List String) (k : String) (v : PyVal),
      (∀ k2 ∈ ks1, pyGet d k2 = Option.none) → pyGet d k = some v →
      findFirstKey d (ks1 ++ k :: ks2) = some v := by
    intro d ks1
    induction ks1 with
    | nil =>
      intro ks2 k v _ hk
      show findFirstKey d (k :: ks2) = some v
      unfold findFirstKey
      rw [hk]
    | cons a rest ih =>
      intro ks2 k v habs hk
      have ha : pyGet d a = Option.none := habs a (List.mem_cons_self a rest)
      show findFirstKey d (a :: (rest ++ k :: ks2)) = some v
      unfold findFirstKey
      rw [ha]
      exact ih ks2 k v (fun k2 hk2 => habs k2 (List.mem_cons_of_mem a hk2)) hk
  have hnone : ∀ (d : PyDict) (ks : List String),
      (∀ k2 ∈ ks, pyGet d k2 = Option.none) → findFirstKey d ks = Option.none := by
    intro d ks
    induction ks with
    | nil => intro _; rfl
    | cons a rest ih =>
      intro habs
      unfold findFirstKey
      rw [habs a (List.mem_cons_self a rest)]
      exact ih (fun k2 hk2 => habs k2 (List.mem_cons_of_mem a hk2))
  have htop : ∀ (e : PyDict) (v : PyVal), findFirstKey e ts_keys = some v →
      extract_timestamp e = parse_timestamp v := by
    intro e v h
    unfold extract_timestamp
    rw [h]
  have hpay : ∀ (e : PyDict) (p : List (String × PyVal)),
      findFirstKey e ts_keys = Option.none →
      pyGet e "payload" = some (PyVal.dict p) →
      extract_timestamp e =
        (match findFirstKey p ts_keys with
         | some v => parse_timestamp v
         | Option.none => Option.none) := by
    intro e p h1 h2
    unfold extract_timestamp
    rw [h1, h2]
  have hmiss : ∀ e : PyDict, findFirstKey e ts_keys = Option.none →
      (∀ p, pyGet e "payload" ≠ some (PyVal.dict p)) →
      extract_timestamp e = Option.none := by
    intro e h1 h2
    unfold extract_timestamp
    rw [h1]
    cases hp : pyGet e "payload" with
    | none => rfl
    | some v =>
      cases v with
      | none => rfl
      | bool b => rfl
      | num n => rfl
      | str s => rfl
      | list xs => rfl
      | dict p => exact absurd hp (h2 p)
  refine ⟨hfind, hnone, htop, hpay, hmiss, ?_⟩
  intro e ks1 ks2 k v heq habs hv
  refine htop e v ?_
  rw [heq]
  exact hfind e ks1 ks2 k v habs hv

/-- The event of the C8 witness: both `timestamp` and `time` present. -/
def c8wEv : PyDict := [("timestamp", PyVal.num 12), ("time", PyVal.num 99)]

/-- A C8 witness event whose first candidate key is absent: only `time`. -/
def c8wSkip : PyDict := [("time", PyVal.num 99)]

/-- A C8 witness event with no top-level candidate key and a payload dict. -/
def c8wPayload : PyDict := [("payload", PyVal.dict [("ts", PyVal.num 7)])]

/-- A C8 witness event with no candidate key anywhere and no payload. -/
def c8wBare : PyDict := [("x", PyVal.num 1)]

/-- C8, witness: the characterization instantiated on concrete events — the
first present key wins over absent earlier keys (`c8wSkip`), the all-absent
search fails (`c8wPayload` top level), a top-level find is resolved
(`c8wEv`), the payload fallback fires only with no top-level candidate
(`c8wPayload`), extraction fails with neither (`c8wBare`), and the combined
split of `ts_keys` resolves the `time` value of `c8wSkip`. -/
theorem c8_first_key_witness :
    findFirstKey c8wSkip
        (["timestamp"] ++ "time" :: ["ts", "created", "created_at", "datetime", "date"])
      = some (PyVal.num 99)
    ∧ findFirstKey c8wPayload ts_keys = Option.none
    ∧ extract_timestamp c8wEv = parse_timestamp (PyVal.num 12)
    ∧ extract_timestamp c8wPayload =
        (match findFirstKey [("ts", PyVal.num 7)] ts_keys with
         | some v => parse_timestamp v
         | Option.none => Option.none)
    ∧ extract_timestamp c8wBare = Option.none
    ∧ extract_timestamp c8wSkip = parse_timestamp (PyVal.num 99) := by
  obtain ⟨hfind, hnone, htop, hpay, hmiss, hsplit⟩ := c8_first_key_amended
  refine ⟨?_, ?_, ?_, ?_, ?_, ?_⟩
  · exact hfind c8wSkip ["timestamp"] ["ts", "created", "created_at", "datetime", "date"]
      "time" (PyVal.num 99) (by intro k2 hk2; fin_cases hk2; rfl) rfl
  · exact hnone c8wPayload ts_keys (by intro k2 hk2; fin_cases hk2 <;> rfl)
  · exact htop c8wEv (PyVal.num 12) rfl
  · exact hpay c8wPayload [("ts", PyVal.num 7)] rfl rfl
  · exact hmiss c8wBare rfl
      (fun p hp => by
        have : (Option.none : Option PyVal) = some (PyVal.dict p) := hp
        exact Option.noConfusion this)
  · exact hsplit c8wSkip ["timestamp"] ["ts", "created", "created_at", "datetime", "date"]
      "time" (PyVal.num 99) rfl (by intro k2 hk2; fin_cases hk2; rfl) rfl

/-- A 201-character rendering, for C9. -/
def c9long : String := String.mk (List.replicate 201 (Char.ofNat 97))

/-- C9, counterexample.  The claim bounds every stored example string by 200
characters, but the truncation stores the first 200 characters plus a
3-character ellipsis: a value whose rendering has 201 characters is stored as
an example of length 203. -/
theorem c9_counterexample :
    ((findField (FieldCatalog.empty.add_field "p" (PyVal.str c9long)) "p").map
        (fun i => i.examples.map String.length) = some [203])
    ∧ ((findField (FieldCatalog.empty.add_field "p" (PyVal.str c9long)) "p").map
        (fun i => i.examples.all (fun e => e.length ≤ 200)) = some false) :=
  ⟨by decide, by decide⟩

/-- C9, amended.  Each Field Record stores at most 3 distinct example
strings, every stored example is at most 203 characters long (a rendering
longer than 200 characters is cut to 200 characters plus the ellipsis
`...`), examples are only added while fewer than 3 are stored, and a
duplicate of an already-stored example is not added; the invariant is
preserved by `add_field` and `mark_session` and holds for the fresh
catalog. -/
theorem c9_examples_amended (c : FieldCatalog) (p : String) (v : PyVal)
    (h : examplesOK c) :
    examplesOK (c.add_field p v)
    ∧ examplesOK c.mark_session
    ∧ examplesOK FieldCatalog.empty
    ∧ (∀ info : FieldInfo, 3 ≤ info.examples.length →
        (infoAddField info v).examples = info.examples)
    ∧ (∀ info : FieldInfo, truncateExample (pyStr v) ∈ info.examples →
        (infoAddField info v).examples = info.examples) := by
  refine ⟨examplesOK_add_field c p v h, examplesOK_mark_session c h,
    examplesOK_empty, ?_, ?_⟩
  · intro info hlen
    unfold infoAddField updateExamples
    dsimp only
    rw [if_neg (by omega)]
  · intro info hmem
    unfold infoAddField updateExamples
    dsimp only
    by_cases hlen : info.examples.length < 3
    · rw [if_pos hlen, if_pos hmem]
    · rw [if_neg hlen]

/-- C9, witness: the amended statement at the fresh catalog and the value
`1`. -/
theorem c9_examples_witness :
    examplesOK (FieldCatalog.empty.add_field "p" (PyVal.num 1))
    ∧ examplesOK FieldCatalog.empty.mark_session
    ∧ examplesOK FieldCatalog.empty
    ∧ (∀ info : FieldInfo, 3 ≤ info.examples.length →
        (infoAddField info (PyVal.num 1)).examples = info.examples)
    ∧ (∀ info : FieldInfo, truncateExample (pyStr (PyVal.num 1)) ∈ info.examples →
        (infoAddField info (PyVal.num 1)).examples = info.examples) :=
  c9_examples_amended FieldCatalog.empty "p" (PyVal.num 1) examplesOK_empty

/-- A session tree with one list of `n` equal one-key dicts, for C10. -/
def c10obj (n : Nat) : PyVal :=
  .dict [("xs", .list (List.replicate n (.dict [("k", .num 1)])))]

/-- C10.  The occurrence count is per occurrence, not per session: scanning a
single session whose tree holds the same key under `n` list elements
(`2 ≤ n ≤ 5`, within the 5-element sampling cap) yields count `n` for the
collapsed path `xs[].k`, while only one session boundary is marked, so the
exported frequency string reads `n/1 sessions` with the numerator exceeding
the session count. -/
theorem c10_count_per_occurrence (n : Nat) (h1 : 2 ≤ n) (h2 : n ≤ 5) :
    ((findField ((scan_json_object (c10obj n) FieldCatalog.empty "").mark_session)
        "xs[].k").map (fun i => i.count) = some n)
    ∧ ((scan_json_object (c10obj n) FieldCatalog.empty "").mark_session).sessions_scanned = 1
    ∧ ((List.lookup "xs[].k"
          ((scan_json_object (c10obj n) FieldCatalog.empty "").mark_session).to_dict).map
        (fun e => e.frequency) = some (toString n ++ "/1 sessions")) := by
  interval_cases n <;> exact ⟨by decide, by decide, by decide⟩

/-- C10, witness: the per-occurrence count at `n = 2` — frequency
`2/1 sessions`. -/
theorem c10_count_witness :
    ((findField ((scan_json_object (c10obj 2) FieldCatalog.empty "").mark_session)
        "xs[].k").map (fun i => i.count) = some 2)
    ∧ ((scan_json_object (c10obj 2) FieldCatalog.empty "").mark_session).sessions_scanned = 1
    ∧ ((List.lookup "xs[].k"
          ((scan_json_object (c10obj 2) FieldCatalog.empty "").mark_session).to_dict).map
        (fun e => e.frequency) = some (toString 2 ++ "/1 sessions")) :=
  c10_count_per_occurrence 2 (by decide) (by decide)

end AgentSessions
